import Mathlib

/-
Verification of the keyring subsystem (relayer/src/keyring.rs).

External crates (bip39, bitcoin bip32, sha2, ripemd160, bech32, serde_json)
and the two submodules not present in the excerpt (errors, pub_key) are
modelled as an abstract parameter structure `Crypto`; the control flow and
data flow of keyring.rs itself is translated statement by statement.
Machine bytes are `List Nat`; the directory of the `Test` backend is an
explicit association list from file name to file contents; the `assert!` in
the `TryFrom<KeyFile>` implementation is modelled as a distinguished
`panicked` outcome.
-/

namespace Keyring

/-- Byte strings (`Vec<u8>` in the source). -/
abbrev Bytes := List Nat

/-- Coin type associated with a key (struct `CoinType(u32)`). -/
structure CoinType where
  num : Nat
deriving DecidableEq, Repr

/-- Atom (Cosmos) coin type with number 118 (`CoinType::ATOM`). -/
def CoinType.atom : CoinType := ⟨118⟩

/-- Default coin type (`impl Default for CoinType` returns `Self::ATOM`). -/
def CoinType.deflt : CoinType := CoinType.atom

/-- Opaque handle for `bip39::Mnemonic`. -/
structure Mnemonic where
  val : Nat
deriving DecidableEq, Repr

/-- Opaque handle for `hdpath::StandardHDPath`. -/
structure HDPath where
  val : Nat
deriving DecidableEq, Repr

/-- Opaque handle for `bitcoin::util::bip32::ExtendedPrivKey`. -/
structure ExtendedPrivKey where
  val : Nat
deriving DecidableEq, Repr

/-- Opaque handle for `bitcoin::util::bip32::ExtendedPubKey`. -/
structure ExtendedPubKey where
  val : Nat
deriving DecidableEq, Repr

/-- Bech32 variant returned by `bech32::decode` (discarded by keyring.rs). -/
inductive Bech32Variant where
  | bech32
  | bech32m
deriving DecidableEq, Repr

/-- Key entry storing the private key and public key as well as the address
(struct `KeyEntry`). -/
structure KeyEntry where
  public_key : ExtendedPubKey
  private_key : ExtendedPrivKey
  account : String
  address : Bytes
  coin_type : CoinType
deriving DecidableEq, Repr

/-- Serializable key file (struct `KeyFile`). -/
structure KeyFile where
  name : String
  type : String
  address : String
  pubkey : String
  mnemonic : String
  coin_type : Option CoinType
deriving DecidableEq, Repr

/-- Modelled from the spec: the error kinds of the `errors` submodule, which
is not part of the excerpt. Section 7 of the specification lists the kinds;
the payloads (context strings, the two byte sequences of
`PublicKeyMismatch`, the path of `InvalidHdPath`) are those visible at the
construction sites in keyring.rs. -/
inductive Kind where
  | keyNotFound
  | existingKey
  | keyStore (context : String)
  | invalidKey
  | invalidMnemonic
  | invalidHdPath (path : String)
  | privateKey
  | publicKeyMismatch (keyfile : Bytes) (mnemonic : Bytes)
  | bech32Account
deriving DecidableEq, Repr

/-- Outcome of a Rust computation that may return, error, or panic. -/
inductive Res (α : Type) where
  | ok (val : α)
  | err (kind : Kind)
  | panicked
deriving DecidableEq, Repr

/-- Interfaces of the external collaborators of keyring.rs. Each field is one
external call the file makes; keyring.rs is parametric in their behaviour. -/
structure Crypto where
  /-- Models `Mnemonic::from_phrase(words, Language::English)`; `none` is the
  error case. -/
  mnemonic_from_phrase : String → Option Mnemonic
  /-- Models `Seed::new(&mnemonic, passphrase).as_bytes()` (infallible). -/
  seed_new : Mnemonic → String → Bytes
  /-- Models `StandardHDPath::try_from(path_str)`; `none` is the error case. -/
  hd_path_try_from : String → Option HDPath
  /-- Models `ExtendedPrivKey::new_master(Network::Bitcoin, seed)`; `none` is
  the error case. -/
  new_master : Bytes → Option ExtendedPrivKey
  /-- Models `k.derive_priv(&Secp256k1::new(), &DerivationPath::from(hd_path))`. -/
  derive_priv : ExtendedPrivKey → HDPath → Option ExtendedPrivKey
  /-- Models `ExtendedPubKey::from_private(&Secp256k1::new(), &private_key)`
  (infallible). -/
  pub_from_private : ExtendedPrivKey → ExtendedPubKey
  /-- Models `pk.public_key.to_bytes()`: compressed byte form of the public
  key. -/
  pub_to_bytes : ExtendedPubKey → Bytes
  /-- Models the `sha2::Sha256` digest over a byte string. -/
  sha256 : Bytes → Bytes
  /-- Models the `ripemd160::Ripemd160` digest over a byte string. -/
  ripemd160 : Bytes → Bytes
  /-- Models `bech32::encode(hrp, data.to_base32(), Variant::Bech32)`; `none`
  is the error case. -/
  bech32_encode : String → Bytes → Option String
  /-- Models `bech32::decode(s)` followed by `Vec::from_base32(&data)`:
  yields the human-readable part, the data bytes and the variant; `none` is
  any failure. -/
  bech32_decode : String → Option (String × Bytes × Bech32Variant)
  /-- Modelled from the spec: the parse of the `pubkey` field into an
  `EncodedPubKey` followed by `into_bytes()`. The `pub_key` submodule is not
  part of the excerpt; per section 7 a malformed encoded public key is the
  `InvalidKey` error, so the codec is modelled as a partial function from
  strings to byte sequences. -/
  parse_pub_key : String → Option Bytes
  /-- Models `serde_json::from_str::<KeyFile>(content)`; `none` is the error
  case. -/
  parse_key_file : String → Option KeyFile

/-- A single-quote character as a string, used by the derivation-path format
and by error-context strings. -/
def squote : String := String.singleton (Char.ofNat 39)

/-- Models the derivation-path format string of the source: m/44 h/coin
h/0 h/0/0, where h stands for the hardened marker (a single quote). -/
def hd_path_string (coin : Nat) : String :=
  "m/44" ++ squote ++ "/" ++ toString coin ++ squote ++ "/0" ++ squote ++ "/0/0"

/-- Decode an extended private key from a mnemonic
(fn `private_key_from_mnemonic`). -/
def private_key_from_mnemonic (c : Crypto) (mnemonic_words : String)
    (coin_type : CoinType) : Except Kind ExtendedPrivKey :=
  match Crypto.mnemonic_from_phrase c mnemonic_words with
  | none => .error Kind.invalidMnemonic
  | some mnemonic =>
    let seed := Crypto.seed_new c mnemonic ("")
    let hd_path_format := hd_path_string coin_type.num
    match Crypto.hd_path_try_from c hd_path_format with
    | none => .error (Kind.invalidHdPath hd_path_format)
    | some hd_path =>
      match (Crypto.new_master c seed).bind
          (fun k => Crypto.derive_priv c k hd_path) with
      | none => .error Kind.privateKey
      | some private_key => .ok private_key

/-- Return an address from a public key (fn `get_address`):
RIPEMD-160 of SHA-256 of the compressed public-key bytes. -/
def get_address (c : Crypto) (pk : ExtendedPubKey) : Bytes :=
  Crypto.ripemd160 c (Crypto.sha256 c (Crypto.pub_to_bytes c pk))

/-- Models fn `decode_bech32`: decode, convert from base32, discard the
human-readable part and the variant; any failure is `Bech32Account`. -/
def decode_bech32 (c : Crypto) (input : String) : Except Kind Bytes :=
  match Crypto.bech32_decode c input with
  | none => .error Kind.bech32Account
  | some (_, bytes, _) => .ok bytes

/-- Models the `TryFrom<KeyFile> for KeyEntry` implementation. The `assert!`
on line 118 of the source is the `panicked` outcome; the `split_off` of
`len - derived_len` keeps `List.drop (len - derived_len)`. -/
def KeyEntry.try_from_key_file (c : Crypto) (key_file : KeyFile) : Res KeyEntry :=
  match decode_bech32 c key_file.address with
  | .error k => Res.err k
  | .ok keyfile_address_bytes =>
    match Crypto.parse_pub_key c key_file.pubkey with
    | none => Res.err Kind.invalidKey
    | some keyfile_pubkey_bytes =>
      let coin_type := key_file.coin_type.getD CoinType.deflt
      match private_key_from_mnemonic c key_file.mnemonic coin_type with
      | .error k => Res.err k
      | .ok private_key =>
        let derived_pubkey := Crypto.pub_from_private c private_key
        let derived_pubkey_bytes := Crypto.pub_to_bytes c derived_pubkey
        if derived_pubkey_bytes.length ≤ keyfile_pubkey_bytes.length then
          let trimmed := keyfile_pubkey_bytes.drop
            (keyfile_pubkey_bytes.length - derived_pubkey_bytes.length)
          if trimmed = derived_pubkey_bytes then
            Res.ok { public_key := derived_pubkey
                     private_key := private_key
                     account := key_file.address
                     address := keyfile_address_bytes
                     coin_type := coin_type }
          else
            Res.err (Kind.publicKeyMismatch trimmed derived_pubkey_bytes)
        else
          Res.panicked

/-- Models const `KEYSTORE_FILE_EXTENSION`. -/
def KEYSTORE_FILE_EXTENSION : String := "json"

/-- Index of the last dot in a character list, if any. -/
def lastDotPos : List Char → Option Nat
  | [] => none
  | c :: rest =>
    match lastDotPos rest with
    | some i => some (i + 1)
    | none => if c = '.' then some 0 else none

/-- Split a file name at its last dot into stem and extension, following the
Rust `Path` rules: a dot at position 0 only (hidden file) yields no
extension. -/
def splitLastDot (s : String) : Option (String × String) :=
  match lastDotPos s.toList with
  | none => none
  | some 0 => none
  | some (i + 1) =>
    some (String.mk (s.toList.take (i + 1)), String.mk (s.toList.drop (i + 2)))

/-- Models `PathBuf::set_extension` on a single path component: replace the
extension after the last dot, or append one. -/
def set_extension (name ext : String) : String :=
  match splitLastDot name with
  | none => name ++ "." ++ ext
  | some (stem, _) => stem ++ "." ++ ext

/-- Models `Path::extension` on a single path component. -/
def path_extension (f : String) : Option String :=
  (splitLastDot f).map (fun p => p.2)

/-- Models `Path::file_stem` on a single path component. -/
def file_stem (f : String) : String :=
  match splitLastDot f with
  | none => f
  | some p => p.1

/-- Contents of one file of the key-store directory: a well-formed
serialized `KeyEntry`, or anything `serde_json::from_reader` rejects. -/
inductive FileData where
  | entry (e : KeyEntry)
  | corrupt
deriving DecidableEq, Repr

/-- The key-store directory: an association of file names to contents. -/
abbrev FS := List (String × FileData)

/-- Look a file up by name. -/
def fsLookup : FS → String → Option FileData
  | [], _ => none
  | (f, d) :: rest, g => if f = g then some d else fsLookup rest g

/-- Models `File::create`: truncate the existing file of that name, or
create it. -/
def fsInsert : FS → String → FileData → FS
  | [], f, d => [(f, d)]
  | (g, e) :: rest, f, d =>
    if g = f then (f, d) :: rest else (g, e) :: fsInsert rest f d

/-- In-memory key store (struct `Memory`). -/
structure Memory where
  account_prefix : String
  keys : List (String × KeyEntry)
deriving DecidableEq, Repr

/-- Models `Memory::new`. -/
def Memory.new (prefixStr : String) : Memory :=
  { account_prefix := prefixStr, keys := [] }

/-- Association-list lookup standing in for `HashMap::get`. -/
def lookupName {α : Type} : List (String × α) → String → Option α
  | [], _ => none
  | (k, v) :: rest, n => if k = n then some v else lookupName rest n

/-- Models `get_key` of `impl KeyStore for Memory`: absent names are
`KeyNotFound`. -/
def Memory.get_key (m : Memory) (key_name : String) : Except Kind KeyEntry :=
  match lookupName m.keys key_name with
  | some e => .ok e
  | none => .error Kind.keyNotFound

/-- Models `add_key` of `impl KeyStore for Memory`: `contains_key` check,
then `insert`. -/
def Memory.add_key (m : Memory) (key_name : String) (key_entry : KeyEntry) :
    Except Kind Memory :=
  if (lookupName m.keys key_name).isSome then
    .error Kind.existingKey
  else
    .ok { m with keys := m.keys ++ [(key_name, key_entry)] }

/-- Models `keys` of `impl KeyStore for Memory`: every stored pair. -/
def Memory.keys_list (m : Memory) : Except Kind (List (String × KeyEntry)) :=
  .ok m.keys

/-- File-backed key store (struct `Test`): the account prefix and the
directory path; the directory contents are passed separately. -/
structure Test where
  account_prefix : String
  store : String
deriving DecidableEq, Repr

/-- Models `get_key` of `impl KeyStore for Test`: build the file name with
extension `json`, fail with a `KeyStore` error if the file is absent or
unreadable. -/
def Test.get_key (t : Test) (fs : FS) (key_name : String) : Except Kind KeyEntry :=
  let key_file := set_extension key_name KEYSTORE_FILE_EXTENSION
  match fsLookup fs key_file with
  | none =>
    .error (Kind.keyStore
      ("cannot find key file at " ++ squote ++ t.store ++ "/" ++ key_file ++ squote))
  | some FileData.corrupt =>
    .error (Kind.keyStore
      ("cannot read key file at " ++ squote ++ t.store ++ "/" ++ key_file ++ squote))
  | some (FileData.entry e) => .ok e

/-- Models `add_key` of `impl KeyStore for Test`: `File::create` then
serialize — creates or truncates, with no existence check. The model assumes
the write itself succeeds (no I/O fault model). -/
def Test.add_key (t : Test) (fs : FS) (key_name : String) (key_entry : KeyEntry) :
    Except Kind FS :=
  let filename := set_extension key_name KEYSTORE_FILE_EXTENSION
  .ok (fsInsert fs filename (FileData.entry key_entry))

/-- Fail-fast collection of `get_key` results, as the `collect` over a
`Result` iterator. -/
def Test.collect (t : Test) (fs : FS) : List String → Except Kind (List (String × KeyEntry))
  | [] => .ok []
  | n :: rest =>
    match Test.get_key t fs n with
    | .error k => .error k
    | .ok e =>
      match Test.collect t fs rest with
      | .error k => .error k
      | .ok l => .ok ((n, e) :: l)

/-- Models `keys` of `impl KeyStore for Test`: list the directory, keep
files with extension `json`, take each file stem as the key name, and load
each. -/
def Test.keys (t : Test) (fs : FS) : Except Kind (List (String × KeyEntry)) :=
  let names := ((fs.map Prod.fst).filter
    (fun f => path_extension f = some KEYSTORE_FILE_EXTENSION)).map file_stem
  Test.collect t fs names

/-- Models enum `KeyRing`: the active backend. -/
inductive KeyRing where
  | memory (m : Memory)
  | test (t : Test)
deriving DecidableEq, Repr

/-- Models `KeyRing::account_prefix`. -/
def KeyRing.account_prefix : KeyRing → String
  | .memory m => Memory.account_prefix m
  | .test t => Test.account_prefix t

/-- Models `KeyRing::get_key`: passthrough to the active backend. -/
def KeyRing.get_key (r : KeyRing) (fs : FS) (key_name : String) : Except Kind KeyEntry :=
  match r with
  | .memory m => Memory.get_key m key_name
  | .test t => Test.get_key t fs key_name

/-- Models `KeyRing::add_key`: passthrough to the active backend; returns
the updated backend state. -/
def KeyRing.add_key (r : KeyRing) (fs : FS) (key_name : String) (key_entry : KeyEntry) :
    Except Kind (KeyRing × FS) :=
  match r with
  | .memory m =>
    match Memory.add_key m key_name key_entry with
    | .error k => .error k
    | .ok m2 => .ok (.memory m2, fs)
  | .test t =>
    match Test.add_key t fs key_name key_entry with
    | .error k => .error k
    | .ok fs2 => .ok (.test t, fs2)

/-- Models `KeyRing::keys`: passthrough to the active backend. -/
def KeyRing.keys (r : KeyRing) (fs : FS) : Except Kind (List (String × KeyEntry)) :=
  match r with
  | .memory m => Memory.keys_list m
  | .test t => Test.keys t fs

/-- Models `KeyRing::key_from_seed_file`: parse the content as a `KeyFile`
(malformed input is `InvalidKey`), then convert. The receiver is a shared
reference, so the backend state is returned unchanged; the state-passing
form makes that explicit. -/
def KeyRing.key_from_seed_file (c : Crypto) (r : KeyRing) (fs : FS)
    (key_file_content : String) : Res KeyEntry × KeyRing × FS :=
  (match Crypto.parse_key_file c key_file_content with
   | none => Res.err Kind.invalidKey
   | some key_file => KeyEntry.try_from_key_file c key_file,
   r, fs)

/-- Models `KeyRing::key_from_mnemonic`: derive the private key, compute the
public key, the address, and the bech32 account under the prefix of the
ring. -/
def KeyRing.key_from_mnemonic (c : Crypto) (r : KeyRing) (mnemonic_words : String)
    (coin_type : CoinType) : Except Kind KeyEntry :=
  match private_key_from_mnemonic c mnemonic_words coin_type with
  | .error k => .error k
  | .ok private_key =>
    let public_key := Crypto.pub_from_private c private_key
    let address := get_address c public_key
    match Crypto.bech32_encode c ( KeyRing.account_prefix r) address with
    | none => .error Kind.bech32Account
    | some account =>
      .ok { public_key := public_key
            private_key := private_key
            account := account
            address := address
            coin_type := coin_type }

deriving instance DecidableEq for Except

/-- Concrete instantiation of the external collaborators used to exercise
the keyring logic on explicit inputs. -/
def cgood : Crypto where
  mnemonic_from_phrase s := if s = "word list" then some ⟨0⟩ else none
  seed_new m _ := [m.val]
  hd_path_try_from _ := some ⟨0⟩
  new_master _ := some ⟨7⟩
  derive_priv k _ := some ⟨k.val + 1⟩
  pub_from_private k := ⟨2 * k.val⟩
  pub_to_bytes pk := [pk.val]
  sha256 bs := 1 :: bs
  ripemd160 bs := 2 :: bs
  bech32_encode _ _ := some "cosmosacct"
  bech32_decode s :=
    if s = "cosmosacct" then some ("cosmos", [2, 1, 16], Bech32Variant.bech32)
    else if s = "zzzacct" then some ("zzz", [9, 9], Bech32Variant.bech32m)
    else none
  parse_pub_key s :=
    if s = "pk16" then some [16]
    else if s = "apk16" then some [0, 16]
    else if s = "bpk16" then some [1, 16]
    else if s = "wrongpk" then some [17]
    else if s = "shortpk" then some []
    else none
  parse_key_file _ := none

/-- A memory-backed keyring with account prefix cosmos. -/
def rmem : KeyRing := KeyRing.memory (Memory.new ("cosmos"))

/-- A file-backed store rooted at a directory named store. -/
def tst : Test := { account_prefix := "cosmos", store := "store" }

/-- The entry `cgood` derives from the mnemonic, with coin type 118. -/
def egood : KeyEntry :=
  { public_key := ⟨16⟩, private_key := ⟨8⟩, account := "cosmosacct",
    address := [2, 1, 16], coin_type := ⟨118⟩ }

/-- The entry imported from a key file whose address is under prefix zzz. -/
def ezzz : KeyEntry :=
  { public_key := ⟨16⟩, private_key := ⟨8⟩, account := "zzzacct",
    address := [9, 9], coin_type := ⟨118⟩ }

/-- A key file that exports `egood`. -/
def kfgood : KeyFile :=
  { name := "n", type := "t", address := "cosmosacct", pubkey := "pk16",
    mnemonic := "word list", coin_type := some ⟨118⟩ }

/-- The file `kfgood` with its address replaced by a bech32 string under a
foreign prefix. -/
def kfzzz : KeyFile := { kfgood with address := "zzzacct" }

/-- The file `kfgood` with a pubkey string carrying one extraneous leading
byte 0. -/
def kfa : KeyFile := { kfgood with pubkey := "apk16" }

/-- The file `kfa` with one byte of the pubkey string mutated (a to b),
which changes the extraneous leading byte from 0 to 1. -/
def kfb : KeyFile := { kfgood with pubkey := "bpk16" }

/-- The file `kfgood` with a pubkey string whose trailing byte disagrees
with the derived key. -/
def kfw : KeyFile := { kfgood with pubkey := "wrongpk" }

/-- The file `kfgood` with a pubkey string that decodes to zero bytes. -/
def kfshort : KeyFile := { kfgood with pubkey := "shortpk" }

/-- A first stored entry. -/
def d1 : KeyEntry :=
  { public_key := ⟨1⟩, private_key := ⟨1⟩, account := "a", address := [1],
    coin_type := ⟨118⟩ }

/-- A second, different stored entry. -/
def d2 : KeyEntry :=
  { public_key := ⟨2⟩, private_key := ⟨2⟩, account := "b", address := [2],
    coin_type := ⟨118⟩ }

/-- The memory store after one add of `d1` under the name k. -/
def mem1 : Memory := { account_prefix := "cosmos", keys := [("k", d1)] }

/-- Association-list lookup of an appended fresh binding. -/
theorem lookupName_append_last {α : Type} (xs : List (String × α)) (k : String) (v : α)
    (h : lookupName xs k = none) : lookupName (xs ++ [(k, v)]) k = some v := by
  induction xs with
  | nil => simp [lookupName]
  | cons p rest ih =>
    obtain ⟨g, w⟩ := p
    by_cases hg : g = k
    · simp [lookupName, hg] at h
    · simp only [List.cons_append, lookupName, if_neg hg] at h ⊢
      exact ih h

/-- Looking up a file right after writing it finds the written contents. -/
theorem fsLookup_fsInsert_self (fs : FS) (f : String) (d : FileData) :
    fsLookup (fsInsert fs f d) f = some d := by
  induction fs with
  | nil => simp [fsInsert, fsLookup]
  | cons p rest ih =>
    obtain ⟨g, e⟩ := p
    by_cases hg : g = f
    · simp [fsInsert, hg, fsLookup]
    · simp [fsInsert, hg, fsLookup, ih]

/-- A reported last-dot index is a valid index. -/
theorem lastDotPos_lt_length (cs : List Char) (j : Nat) (h : lastDotPos cs = some j) :
    j < cs.length := by
  induction cs generalizing j with
  | nil => simp [lastDotPos] at h
  | cons c rest ih =>
    simp only [lastDotPos] at h
    cases hr : lastDotPos rest with
    | some i => rw [hr] at h; simp at h; subst h; exact Nat.succ_lt_succ (ih i hr)
    | none =>
      rw [hr] at h
      by_cases hc : c = '.'
      · simp [hc] at h; subst h; simp
      · simp [hc] at h

/-- A dot appended after anything becomes the last dot when the tail has
none. -/
theorem lastDotPos_append_dot (xs ys : List Char) (h : lastDotPos ys = none) :
    lastDotPos (xs ++ '.' :: ys) = some xs.length := by
  induction xs with
  | nil => simp [lastDotPos, h]
  | cons x rest ih => simp [lastDotPos, ih]

/-- Taking the length of the left part of an append returns it. -/
theorem takeAppend {α : Type} (xs ys : List α) : (xs ++ ys).take xs.length = xs := by
  induction xs with
  | nil => rfl
  | cons x r ih => simp [ih]

/-- Dropping the length of the left part of an append returns the right
part. -/
theorem dropAppend {α : Type} (xs ys : List α) : (xs ++ ys).drop xs.length = ys := by
  induction xs with
  | nil => rfl
  | cons x r ih => simp [ih]

/-- The stem reported by a successful split is nonempty. -/
theorem splitLastDot_stem_ne_empty (n st sfx : String)
    (h : splitLastDot n = some (st, sfx)) : st.toList ≠ [] := by
  unfold splitLastDot at h
  cases hp : lastDotPos n.toList with
  | none => rw [hp] at h; cases h
  | some j =>
    rw [hp] at h
    cases j with
    | zero => cases h
    | succ i =>
      simp only [Option.some.injEq, Prod.mk.injEq] at h
      obtain ⟨h1, _⟩ := h
      have hlt := lastDotPos_lt_length _ _ hp
      have hlength : st.toList.length = i + 1 := by
        rw [← h1]
        show (n.toList.take (i + 1)).length = i + 1
        rw [List.length_take]
        exact Nat.min_eq_left (Nat.le_of_lt hlt)
      intro hcon
      rw [hcon] at hlength
      simp at hlength

/-- Splitting after appending a dot and a dot-free extension returns the
original name and the extension. -/
theorem splitLastDot_append_ext (st ext : String)
    (hne : st.toList ≠ []) (hext : lastDotPos ext.toList = none) :
    splitLastDot (st ++ "." ++ ext) = some (st, ext) := by
  obtain ⟨l⟩ := st
  obtain ⟨el⟩ := ext
  have hext2 : lastDotPos el = none := hext
  have hne2 : l ≠ [] := hne
  have hl : (String.mk l ++ "." ++ String.mk el).toList = l ++ '.' :: el := by
    show (String.mk l ++ "." ++ String.mk el).data = l ++ '.' :: el
    rw [String.data_append, String.data_append]
    have hdot : ".".data = ['.'] := rfl
    rw [hdot, List.append_assoc]
    rfl
  have hpos : lastDotPos (l ++ '.' :: el) = some l.length :=
    lastDotPos_append_dot l el hext2
  obtain ⟨m, hm⟩ : ∃ m, l.length = m + 1 := by
    cases l with
    | nil => exact absurd rfl hne2
    | cons c cs => exact ⟨cs.length, rfl⟩
  have h1 : (l ++ '.' :: el).take (m + 1) = l := by
    rw [← hm]; exact takeAppend l _
  have h2 : (l ++ '.' :: el).drop (m + 2) = el := by
    have hre : l ++ '.' :: el = (l ++ ['.']) ++ el := by simp
    have hlen : (l ++ ['.']).length = m + 2 := by simp [hm]
    rw [hre, ← hlen, dropAppend]
  simp only [splitLastDot, hl, hpos, hm, h1, h2]

/-- Inversion for `KeyRing.key_from_mnemonic`: a successful derivation
exposes the private key and every field of the result. -/
theorem key_from_mnemonic_ok (c : Crypto) (r : KeyRing) (M : String) (C : CoinType)
    (e : KeyEntry) (h : KeyRing.key_from_mnemonic c r M C = .ok e) :
    ∃ priv,
      private_key_from_mnemonic c M C = .ok priv ∧
      e.public_key = Crypto.pub_from_private c priv ∧
      e.private_key = priv ∧
      e.address = get_address c (Crypto.pub_from_private c priv) ∧
      Crypto.bech32_encode c ( KeyRing.account_prefix r)
        (get_address c (Crypto.pub_from_private c priv)) = some e.account ∧
      e.coin_type = C := by
  unfold KeyRing.key_from_mnemonic at h
  cases hpriv : private_key_from_mnemonic c M C with
  | error k => rw [hpriv] at h; cases h
  | ok priv =>
    rw [hpriv] at h
    simp only at h
    cases henc : Crypto.bech32_encode c ( KeyRing.account_prefix r)
        (get_address c (Crypto.pub_from_private c priv)) with
    | none => rw [henc] at h; cases h
    | some acct =>
      rw [henc] at h
      simp only [Except.ok.injEq] at h
      subst h
      exact ⟨priv, rfl, rfl, rfl, rfl, henc, rfl⟩

/-- Inversion for `KeyEntry.try_from_key_file`: a successful import exposes
the decoded address bytes, the parsed pubkey bytes, the derived private key,
and every field of the result. -/
theorem try_from_ok (c : Crypto) (kf : KeyFile) (e : KeyEntry)
    (h : KeyEntry.try_from_key_file c kf = Res.ok e) :
    ∃ ab bs priv,
      decode_bech32 c kf.address = .ok ab ∧
      Crypto.parse_pub_key c kf.pubkey = some bs ∧
      private_key_from_mnemonic c kf.mnemonic (kf.coin_type.getD CoinType.deflt) = .ok priv ∧
      (Crypto.pub_to_bytes c (Crypto.pub_from_private c priv)).length ≤ bs.length ∧
      bs.drop (bs.length - (Crypto.pub_to_bytes c (Crypto.pub_from_private c priv)).length) =
        Crypto.pub_to_bytes c (Crypto.pub_from_private c priv) ∧
      e = { public_key := Crypto.pub_from_private c priv, private_key := priv,
            account := kf.address, address := ab,
            coin_type := kf.coin_type.getD CoinType.deflt } := by
  unfold KeyEntry.try_from_key_file at h
  cases hdec : decode_bech32 c kf.address with
  | error k => rw [hdec] at h; cases h
  | ok ab =>
    rw [hdec] at h
    simp only at h
    cases hparse : Crypto.parse_pub_key c kf.pubkey with
    | none => rw [hparse] at h; cases h
    | some bs =>
      rw [hparse] at h
      simp only at h
      cases hpriv : private_key_from_mnemonic c kf.mnemonic (kf.coin_type.getD CoinType.deflt) with
      | error k => rw [hpriv] at h; cases h
      | ok priv =>
        rw [hpriv] at h
        simp only at h
        by_cases hlen : (Crypto.pub_to_bytes c (Crypto.pub_from_private c priv)).length ≤ bs.length
        · rw [if_pos hlen] at h
          by_cases heq : bs.drop
              (bs.length - (Crypto.pub_to_bytes c (Crypto.pub_from_private c priv)).length) =
              Crypto.pub_to_bytes c (Crypto.pub_from_private c priv)
          · rw [if_pos heq] at h
            simp only [Res.ok.injEq] at h
            exact ⟨ab, bs, priv, rfl, rfl, rfl, hlen, heq, h.symm⟩
          · rw [if_neg heq] at h; cases h
        · rw [if_neg hlen] at h; cases h

/-- C1 counterexample: the claim extends the address/account invariant to
entries imported from key files, but import copies the claims of the file
instead: this key file imports successfully while its decoded address bytes
differ from the double hash of the public key of the entry, and its account
is not the bech32 encoding of the address under the encoder of the ring. -/
theorem C1_counterexample :
    KeyEntry.try_from_key_file cgood kfzzz = Res.ok ezzz ∧
    ezzz.address ≠ get_address cgood ezzz.public_key ∧
    Crypto.bech32_encode cgood ("cosmos") ezzz.address ≠ some ezzz.account := by
  decide

/-- C1 (amended): entries produced by `key_from_mnemonic` satisfy the
invariant — `address` is RIPEMD-160 of SHA-256 of the compressed public key
and `account` is its bech32 encoding under the ring prefix — while entries
produced by key-file import take the address string of the file verbatim as
`account` and its bech32-decoded bytes as `address`. -/
theorem C1_amended_invariant :
    (∀ (c : Crypto) (r : KeyRing) (M : String) (C : CoinType) (e : KeyEntry),
      KeyRing.key_from_mnemonic c r M C = .ok e →
      e.address = get_address c e.public_key ∧
      Crypto.bech32_encode c ( KeyRing.account_prefix r) e.address = some e.account) ∧
    (∀ (c : Crypto) (kf : KeyFile) (e : KeyEntry),
      KeyEntry.try_from_key_file c kf = Res.ok e →
      e.account = kf.address ∧ decode_bech32 c kf.address = .ok e.address) := by
  constructor
  · intro c r M C e h
    obtain ⟨priv, _, hpub, _, haddr, henc, _⟩ := key_from_mnemonic_ok c r M C e h
    refine ⟨by rw [haddr, hpub], ?_⟩
    rw [haddr, henc]
  · intro c kf e h
    obtain ⟨ab, bs, priv, hdec, _, _, _, _, he⟩ := try_from_ok c kf e h
    subst he
    exact ⟨rfl, hdec⟩

/-- C1 witness: the amended invariant evaluated on the concrete derivation
and the concrete import. -/
theorem C1_witness :
    (egood.address = get_address cgood egood.public_key ∧
      Crypto.bech32_encode cgood ( KeyRing.account_prefix rmem) egood.address =
        some egood.account) ∧
    (ezzz.account = kfzzz.address ∧ decode_bech32 cgood kfzzz.address = .ok ezzz.address) :=
  ⟨C1_amended_invariant.1 cgood rmem ("word list") ⟨118⟩ egood (by decide),
   C1_amended_invariant.2 cgood kfzzz ezzz (by decide)⟩

/-- C2 counterexample: the claim says every single-byte mutation of the
pubkey string of a valid key file makes import fail with
`PublicKeyMismatch`; but the import comparison first strips the leading
bytes beyond the derived length, so a mutation confined to the stripped
prefix leaves import succeeding: `kfa` is valid, `kfb` differs from it in
exactly one byte of `pubkey`, and both import to the same entry. -/
theorem C2_counterexample :
    KeyEntry.try_from_key_file cgood kfa = Res.ok egood ∧
    KeyEntry.try_from_key_file cgood kfb = Res.ok egood ∧
    kfb = { kfa with pubkey := kfb.pubkey } ∧
    kfa.pubkey.toList.length = kfb.pubkey.toList.length ∧
    ((kfa.pubkey.toList.zip kfb.pubkey.toList).countP (fun p => p.1 != p.2)) = 1 := by
  decide

/-- C2 (amended): a pubkey mutation triggers `PublicKeyMismatch` — carrying
the trimmed key-file bytes and the mnemonic-derived bytes — exactly when the
mutated string still parses and its trailing bytes (of the derived length)
differ from the derived public key; when the trailing bytes agree (for
instance when only stripped leading bytes changed) import succeeds. -/
theorem C2_amended_tamper (c : Crypto) (kf : KeyFile) (ab bs : Bytes)
    (priv : ExtendedPrivKey)
    (hdec : decode_bech32 c kf.address = .ok ab)
    (hparse : Crypto.parse_pub_key c kf.pubkey = some bs)
    (hpriv : private_key_from_mnemonic c kf.mnemonic
      (kf.coin_type.getD CoinType.deflt) = .ok priv)
    (hlen : (Crypto.pub_to_bytes c (Crypto.pub_from_private c priv)).length ≤ bs.length) :
    (bs.drop (bs.length - (Crypto.pub_to_bytes c (Crypto.pub_from_private c priv)).length) ≠
        Crypto.pub_to_bytes c (Crypto.pub_from_private c priv) →
      KeyEntry.try_from_key_file c kf =
        Res.err (Kind.publicKeyMismatch
          (bs.drop (bs.length -
            (Crypto.pub_to_bytes c (Crypto.pub_from_private c priv)).length))
          (Crypto.pub_to_bytes c (Crypto.pub_from_private c priv)))) ∧
    (bs.drop (bs.length - (Crypto.pub_to_bytes c (Crypto.pub_from_private c priv)).length) =
        Crypto.pub_to_bytes c (Crypto.pub_from_private c priv) →
      KeyEntry.try_from_key_file c kf =
        Res.ok { public_key := Crypto.pub_from_private c priv, private_key := priv,
                 account := kf.address, address := ab,
                 coin_type := kf.coin_type.getD CoinType.deflt }) := by
  constructor
  · intro hne
    unfold KeyEntry.try_from_key_file
    rw [hdec]
    simp only
    rw [hparse]
    simp only
    rw [hpriv]
    simp only
    rw [if_pos hlen, if_neg hne]
  · intro heq
    unfold KeyEntry.try_from_key_file
    rw [hdec]
    simp only
    rw [hparse]
    simp only
    rw [hpriv]
    simp only
    rw [if_pos hlen, if_pos heq]

/-- C2 witness: the amended statement evaluated on a concrete mismatching
pubkey string. -/
theorem C2_witness :
    KeyEntry.try_from_key_file cgood kfw = Res.err (Kind.publicKeyMismatch [17] [16]) :=
  (C2_amended_tamper cgood kfw [2, 1, 16] [17] ⟨8⟩ (by decide) (by decide) (by decide)
    (by decide)).1 (by decide)

/-- C3 counterexample: the claim extends the no-overwrite guarantee to the
durable backend, but the durable `add_key` runs `File::create` with no
existence check: a second add of the same name succeeds and the stored
entry is replaced. -/
theorem C3_counterexample :
    Test.add_key tst [] ("k") d1 = .ok [("k.json", FileData.entry d1)] ∧
    Test.add_key tst [("k.json", FileData.entry d1)] ("k") d2 =
      .ok [("k.json", FileData.entry d2)] ∧
    Test.get_key tst [("k.json", FileData.entry d2)] ("k") = .ok d2 ∧
    d1 ≠ d2 ∧
    Test.get_key tst [("k.json", FileData.entry d2)] ("k") ≠ .ok d1 := by
  decide

/-- C3 (amended): only the transient backend enforces uniqueness — a second
`add_key` under an occupied name fails with `ExistingKey` and the original
entry is still returned — while the durable backend accepts the second add
and afterwards returns the new entry. -/
theorem C3_amended_uniqueness :
    (∀ (m m1 : Memory) (k : String) (e1 e2 : KeyEntry),
      Memory.add_key m k e1 = .ok m1 →
      Memory.add_key m1 k e2 = .error Kind.existingKey ∧
      Memory.get_key m1 k = .ok e1) ∧
    (∀ (t : Test) (fs fs1 fs2 : FS) (k : String) (e1 e2 : KeyEntry),
      Test.add_key t fs k e1 = .ok fs1 →
      Test.add_key t fs1 k e2 = .ok fs2 →
      Test.get_key t fs2 k = .ok e2) := by
  constructor
  · intro m m1 k e1 e2 h
    unfold Memory.add_key at h
    by_cases hc : (lookupName m.keys k).isSome
    · rw [if_pos hc] at h; cases h
    · rw [if_neg hc] at h
      simp only [Except.ok.injEq] at h
      subst h
      have hnone : lookupName m.keys k = none := Option.not_isSome_iff_eq_none.mp hc
      have hfound : lookupName (m.keys ++ [(k, e1)]) k = some e1 :=
        lookupName_append_last m.keys k e1 hnone
      constructor
      · unfold Memory.add_key
        rw [if_pos]
        show (lookupName (m.keys ++ [(k, e1)]) k).isSome
        rw [hfound]
        rfl
      · unfold Memory.get_key
        show (match lookupName (m.keys ++ [(k, e1)]) k with
          | some e => Except.ok e
          | none => Except.error Kind.keyNotFound) = Except.ok e1
        rw [hfound]
  · intro t fs fs1 fs2 k e1 e2 h1 h2
    unfold Test.add_key at h1 h2
    simp only [Except.ok.injEq] at h1 h2
    subst h1
    subst h2
    simp only [Test.get_key]
    rw [fsLookup_fsInsert_self]

/-- C3 witness: the amended statement on a concrete store. -/
theorem C3_witness :
    (Memory.add_key mem1 ("k") d2 = .error Kind.existingKey ∧
      Memory.get_key mem1 ("k") = .ok d1) ∧
    Test.get_key tst [("k.json", FileData.entry d2)] ("k") = .ok d2 :=
  ⟨C3_amended_uniqueness.1 (Memory.new ("cosmos")) mem1 ("k") d1 d2 (by decide),
   C3_amended_uniqueness.2 tst [] [("k.json", FileData.entry d1)]
    [("k.json", FileData.entry d2)] ("k") d1 d2 (by decide) (by decide)⟩

/-- C4: the derive-export-import round trip. If an entry derives from
mnemonic M and coin type C, and the external codecs round-trip on its
account string and its public-key bytes, then importing the exported key
file succeeds, reproduces the identical entry, and raises no
`PublicKeyMismatch`. -/
theorem C4_round_trip (c : Crypto) (r : KeyRing) (M : String) (C : CoinType)
    (e : KeyEntry) (hrp pkstr nm ty : String) (v : Bech32Variant)
    (hderive : KeyRing.key_from_mnemonic c r M C = .ok e)
    (hdec : Crypto.bech32_decode c e.account = some (hrp, e.address, v))
    (hparse : Crypto.parse_pub_key c pkstr = some (Crypto.pub_to_bytes c e.public_key)) :
    KeyEntry.try_from_key_file c
      { name := nm, type := ty, address := e.account, pubkey := pkstr,
        mnemonic := M, coin_type := some C } = Res.ok e := by
  obtain ⟨priv, hpriv, hpub, hprivkey, haddr, _, hct⟩ :=
    key_from_mnemonic_ok c r M C e hderive
  unfold KeyEntry.try_from_key_file
  simp only
  unfold decode_bech32
  rw [hdec]
  simp only
  rw [hparse]
  simp only
  have hgd : (Option.some C).getD CoinType.deflt = C := rfl
  rw [hgd, hpriv]
  simp only
  rw [hpub]
  rw [if_pos (Nat.le_refl _), Nat.sub_self, List.drop_zero, if_pos rfl]
  cases e
  simp only at hpub hprivkey haddr hct
  rw [hpub, hprivkey, hct]

/-- C4 witness: the round trip evaluated on the concrete derivation. -/
theorem C4_witness : KeyEntry.try_from_key_file cgood kfgood = Res.ok egood :=
  C4_round_trip cgood rmem ("word list") ⟨118⟩ egood ("cosmos") ("pk16") ("n") ("t")
    Bech32Variant.bech32 (by decide) (by decide) (by decide)

/-- C5: evaluation at the failing input. The import code asserts that the
derived length is at most the key-file length; a key file whose pubkey
string decodes to fewer bytes than the freshly-derived public key makes the
assert fail, so import panics instead of returning `InvalidKey`. -/
theorem C5_assert_panics :
    Crypto.parse_pub_key cgood kfshort.pubkey = some [] ∧
    KeyEntry.try_from_key_file cgood kfshort = Res.panicked ∧
    KeyEntry.try_from_key_file cgood kfshort ≠ Res.err Kind.invalidKey := by
  decide

/-- C6 counterexample: the claim says both backends report missing names as
`KeyNotFound`, but the durable backend reports a `KeyStore` error (with a
path context) when the key file does not exist. -/
theorem C6_counterexample :
    Test.get_key tst [] ("missing") =
      .error (Kind.keyStore
        ("cannot find key file at " ++ squote ++ "store/missing.json" ++ squote)) ∧
    Test.get_key tst [] ("missing") ≠ .error Kind.keyNotFound := by
  decide

/-- C6 (amended): a name absent from the transient backend fails with
`KeyNotFound`; a name whose file is absent from the durable backend fails
with a `KeyStore` error naming the missing path. -/
theorem C6_amended_absence :
    (∀ (m : Memory) (k : String), lookupName m.keys k = none →
      Memory.get_key m k = .error Kind.keyNotFound) ∧
    (∀ (t : Test) (fs : FS) (k : String),
      fsLookup fs (set_extension k KEYSTORE_FILE_EXTENSION) = none →
      Test.get_key t fs k = .error (Kind.keyStore
        ("cannot find key file at " ++ squote ++ t.store ++ "/" ++
          set_extension k KEYSTORE_FILE_EXTENSION ++ squote))) := by
  constructor
  · intro m k h
    unfold Memory.get_key
    rw [h]
  · intro t fs k h
    simp only [Test.get_key]
    rw [h]

/-- C6 witness: the amended statement on concrete empty backends. -/
theorem C6_witness :
    Memory.get_key (Memory.new ("cosmos")) ("missing") = .error Kind.keyNotFound ∧
    Test.get_key tst [] ("missing") = .error (Kind.keyStore
      ("cannot find key file at " ++ squote ++ tst.store ++ "/" ++
        set_extension ("missing") KEYSTORE_FILE_EXTENSION ++ squote)) :=
  ⟨C6_amended_absence.1 (Memory.new ("cosmos")) ("missing") (by decide),
   C6_amended_absence.2 tst [] ("missing") (by decide)⟩

/-- C7: derivation is deterministic — the embedded functions are pure, so
two runs of `private_key_from_mnemonic` coincide, and any two successful
derivations from the same mnemonic, coin type and prefix agree on every
field. -/
theorem C7_determinism :
    ∀ (c : Crypto) (r : KeyRing) (M : String) (C : CoinType) (e1 e2 : KeyEntry),
      private_key_from_mnemonic c M C = private_key_from_mnemonic c M C ∧
      (KeyRing.key_from_mnemonic c r M C = .ok e1 →
       KeyRing.key_from_mnemonic c r M C = .ok e2 →
       e1.private_key = e2.private_key ∧ e1.public_key = e2.public_key ∧
       e1.address = e2.address ∧ e1.account = e2.account ∧ e1 = e2) := by
  intro c r M C e1 e2
  refine ⟨rfl, fun h1 h2 => ?_⟩
  have he : e1 = e2 := Except.ok.inj (h1.symm.trans h2)
  subst he
  exact ⟨rfl, rfl, rfl, rfl, rfl⟩

/-- C7 witness: determinism evaluated on the concrete derivation. -/
theorem C7_witness :
    egood.private_key = egood.private_key ∧ egood.public_key = egood.public_key ∧
    egood.address = egood.address ∧ egood.account = egood.account ∧ egood = egood :=
  (C7_determinism cgood rmem ("word list") ⟨118⟩ egood egood).2 (by decide) (by decide)

/-- C8: import performs no validation of the address field. For any key file
whose mnemonic and pubkey agree, and whose address decodes under an
arbitrary human-readable part `hrp` and an arbitrary bech32 variant `v` to
arbitrary bytes `ab`, import succeeds; `hrp` and `v` do not appear in the
result, the address string of the file is the `account` of the entry
verbatim, and `ab` is its `address`. -/
theorem C8_import_ignores_address (c : Crypto) (kf : KeyFile) (hrp : String)
    (ab : Bytes) (v : Bech32Variant) (bs : Bytes) (priv : ExtendedPrivKey)
    (hdec : Crypto.bech32_decode c kf.address = some (hrp, ab, v))
    (hparse : Crypto.parse_pub_key c kf.pubkey = some bs)
    (hpriv : private_key_from_mnemonic c kf.mnemonic
      (kf.coin_type.getD CoinType.deflt) = .ok priv)
    (hlen : (Crypto.pub_to_bytes c (Crypto.pub_from_private c priv)).length ≤ bs.length)
    (heq : bs.drop (bs.length -
        (Crypto.pub_to_bytes c (Crypto.pub_from_private c priv)).length) =
      Crypto.pub_to_bytes c (Crypto.pub_from_private c priv)) :
    KeyEntry.try_from_key_file c kf =
      Res.ok { public_key := Crypto.pub_from_private c priv, private_key := priv,
               account := kf.address, address := ab,
               coin_type := kf.coin_type.getD CoinType.deflt } := by
  unfold KeyEntry.try_from_key_file decode_bech32
  rw [hdec]
  simp only
  rw [hparse]
  simp only
  rw [hpriv]
  simp only
  rw [if_pos hlen, if_pos heq]

/-- C8 witness: a key file whose address is under the foreign prefix zzz
with the bech32m variant imports successfully, carrying the address string
and decoded bytes of the file. -/
theorem C8_witness : KeyEntry.try_from_key_file cgood kfzzz = Res.ok ezzz :=
  C8_import_ignores_address cgood kfzzz ("zzz") [9, 9] Bech32Variant.bech32m [16] ⟨8⟩
    (by decide) (by decide) (by decide) (by decide) (by decide)

/-- C9: `key_from_seed_file` takes the keyring by shared reference and never
touches the backend: in the state-passing form the backend state is returned
unchanged, every observation through `get_key` and `keys` is unchanged, and
the result is exactly the parse-then-import of the content, not persisted
anywhere. -/
theorem C9_seed_file_frame :
    ∀ (c : Crypto) (r : KeyRing) (fs : FS) (content : String),
      (KeyRing.key_from_seed_file c r fs content).2.1 = r ∧
      (KeyRing.key_from_seed_file c r fs content).2.2 = fs ∧
      (∀ n, KeyRing.get_key (KeyRing.key_from_seed_file c r fs content).2.1
          (KeyRing.key_from_seed_file c r fs content).2.2 n = KeyRing.get_key r fs n) ∧
      KeyRing.keys (KeyRing.key_from_seed_file c r fs content).2.1
          (KeyRing.key_from_seed_file c r fs content).2.2 = KeyRing.keys r fs ∧
      (KeyRing.key_from_seed_file c r fs content).1 =
        (match Crypto.parse_key_file c content with
         | none => Res.err Kind.invalidKey
         | some key_file => KeyEntry.try_from_key_file c key_file) := by
  intro c r fs content
  exact ⟨rfl, rfl, fun n => rfl, rfl, rfl⟩

/-- C10: in the durable backend both `get_key` and `add_key` replace the
final dot-suffix of the name with json, so two names sharing a last-dot
stem address the same file: adding under the second name replaces the entry
stored under the first, and `keys` afterwards reports the bare stem. -/
theorem C10_dot_suffix_collision (t : Test) (n1 n2 st s1 s2 : String)
    (e1 e2 : KeyEntry) (fs1 fs2 : FS)
    (h1 : splitLastDot n1 = some (st, s1))
    (h2 : splitLastDot n2 = some (st, s2))
    (hst : splitLastDot st = none)
    (ha1 : Test.add_key t [] n1 e1 = .ok fs1)
    (ha2 : Test.add_key t fs1 n2 e2 = .ok fs2) :
    set_extension n1 KEYSTORE_FILE_EXTENSION = set_extension n2 KEYSTORE_FILE_EXTENSION ∧
    Test.get_key t fs2 n1 = .ok e2 ∧
    Test.keys t fs2 = .ok [(st, e2)] := by
  have hfn1 : set_extension n1 KEYSTORE_FILE_EXTENSION =
      st ++ "." ++ KEYSTORE_FILE_EXTENSION := by
    unfold set_extension
    rw [h1]
  have hfn2 : set_extension n2 KEYSTORE_FILE_EXTENSION =
      st ++ "." ++ KEYSTORE_FILE_EXTENSION := by
    unfold set_extension
    rw [h2]
  have hne : st.toList ≠ [] := splitLastDot_stem_ne_empty n1 st s1 h1
  have hext : lastDotPos KEYSTORE_FILE_EXTENSION.toList = none := by decide
  have hsplit : splitLastDot (st ++ "." ++ KEYSTORE_FILE_EXTENSION) =
      some (st, KEYSTORE_FILE_EXTENSION) := splitLastDot_append_ext _ _ hne hext
  have hsetst : set_extension st KEYSTORE_FILE_EXTENSION =
      st ++ "." ++ KEYSTORE_FILE_EXTENSION := by
    unfold set_extension
    rw [hst]
  simp only [Test.add_key, Except.ok.injEq] at ha1 ha2
  rw [hfn1] at ha1
  rw [hfn2] at ha2
  subst ha1
  subst ha2
  refine ⟨hfn1.trans hfn2.symm, ?_, ?_⟩
  · simp only [Test.get_key]
    rw [hfn1, fsLookup_fsInsert_self]
  · have hfs2 : fsInsert (fsInsert ([] : FS) (st ++ "." ++ KEYSTORE_FILE_EXTENSION)
        (FileData.entry e1)) (st ++ "." ++ KEYSTORE_FILE_EXTENSION) (FileData.entry e2) =
        [(st ++ "." ++ KEYSTORE_FILE_EXTENSION, FileData.entry e2)] := by
      simp [fsInsert]
    rw [hfs2]
    simp [Test.keys, path_extension, hsplit, file_stem, Test.collect, Test.get_key,
      hsetst, fsLookup]

/-- C10 witness: the names k.a and k.b collide on the file k.json; after the
two adds the stored entry is the second one and `keys` reports the name k. -/
theorem C10_witness :
    set_extension ("k.a") KEYSTORE_FILE_EXTENSION =
      set_extension ("k.b") KEYSTORE_FILE_EXTENSION ∧
    Test.get_key tst [("k.json", FileData.entry d2)] ("k.a") = .ok d2 ∧
    Test.keys tst [("k.json", FileData.entry d2)] = .ok [("k", d2)] :=
  C10_dot_suffix_collision tst ("k.a") ("k.b") ("k") ("a") ("b") d1 d2
    [("k.json", FileData.entry d1)] [("k.json", FileData.entry d2)]
    (by decide) (by decide) (by decide) (by decide) (by decide)

end Keyring
